import Mathlib

/-!
Shallow embedding of `src/extractor/parser.py` (invoice-pdf-to-excel):
number normalization, header mapping and scoring, header-row and table
selection, row extraction, reference-code extraction, and the per-page
orchestration loop, together with theorems settling the specification
claims about them.
-/

set_option maxRecDepth 10000

namespace Extractor

/-- Whitespace as Python's `str.split` / `str.strip` / `\s` see it
(ASCII whitespace plus the no-break space that the source handles). -/
def isPySpace (c : Char) : Bool :=
  c = ' ' || c = '\t' || c = '\n' || c = '\r' || c = '\x0b' || c = '\x0c' || c = '\u00A0'

/-- Word characters for the regex `\b` boundary (Python `\w` on the
ASCII inputs this program processes). -/
def isWordChar (c : Char) : Bool :=
  c.isAlphanum || c = '_'

/-- ASCII lowercasing, modelling `str.lower` / `re.I` on this program's input. -/
def lowerChar (c : Char) : Char := c.toLower

/-- Left strip, as in Python `str.strip`. -/
def lstrip (l : List Char) : List Char := l.dropWhile isPySpace

/-- Python `str.strip`: drop leading and trailing whitespace. -/
def pyStrip (l : List Char) : List Char :=
  ((lstrip l).reverse.dropWhile isPySpace).reverse

/-- Worker for `pyWords`: accumulates the current word (reversed). -/
def pyWordsAux (cur : List Char) : List Char → List (List Char)
  | [] => if cur.isEmpty then [] else [cur.reverse]
  | c :: cs =>
    if isPySpace c then
      if cur.isEmpty then pyWordsAux [] cs else cur.reverse :: pyWordsAux [] cs
    else
      pyWordsAux (c :: cur) cs

/-- Python `str.split()` with no argument: maximal runs of non-whitespace. -/
def pyWords (l : List Char) : List (List Char) := pyWordsAux [] l

/-- Collapse internal whitespace to single spaces:
the source's recurring idiom `" ".join(str(x).split())`. -/
def collapse (l : List Char) : List Char :=
  List.intercalate [' '] (pyWords l)

/-- String-level wrapper for `collapse`. -/
def collapseS (s : String) : String := ⟨collapse s.data⟩

/-- String-level wrapper for `pyStrip`. -/
def stripS (s : String) : String := ⟨pyStrip s.data⟩

/-! ## A small regular-expression engine

The source relies on `re` patterns built from character classes,
literals, `?`, `*`, `+`, alternation and the `\b` word boundary.  We
embed exactly that fragment.  `matchEnds` returns every position at
which the expression can stop matching when started at `pos`; the
`fuel` argument bounds star unrolling (each unrolling consumes at
least one character, so `length + 1` fuel is always enough). -/

inductive RE : Type
  | pred (p : Char → Bool) : RE
  | eps : RE
  | wordB : RE
  | seq (a b : RE) : RE
  | alt (a b : RE) : RE
  | star (a : RE) : RE

/-- True when `pos` sits on a `\b` word boundary of `s`. -/
def atBoundary (s : List Char) (pos : Nat) : Bool :=
  let before := if h : 0 < pos ∧ pos - 1 < s.length then isWordChar (s.get ⟨pos - 1, h.2⟩) else false
  let after := if h : pos < s.length then isWordChar (s.get ⟨pos, h⟩) else false
  before != after

/-- End positions reachable by iterating a star whose body's end
positions from a given start are produced by `step`.  Each productive
iteration advances the position, so fuel bounds the unrolling. -/
def starEnds (step : Nat → List Nat) : Nat → Nat → List Nat
  | pos, 0 => [pos]
  | pos, fuel + 1 =>
    pos :: (step pos).flatMap (fun e => if pos < e then starEnds step e fuel else [])

/-- All end positions of a match of `r` starting at `pos` in `s`. -/
def matchEnds (s : List Char) : RE → Nat → List Nat
  | .pred p, pos =>
    if h : pos < s.length then (if p (s.get ⟨pos, h⟩) then [pos + 1] else []) else []
  | .eps, pos => [pos]
  | .wordB, pos => if atBoundary s pos then [pos] else []
  | .seq a b, pos => (matchEnds s a pos).flatMap (fun e => matchEnds s b e)
  | .alt a b, pos => matchEnds s a pos ++ matchEnds s b pos
  | .star a, pos => starEnds (fun q => matchEnds s a q) pos (s.length + 1 - pos)

/-- Literal character sequence as a regex. -/
def lit (cs : List Char) : RE :=
  cs.foldr (fun c r => .seq (.pred (fun d => d = c)) r) .eps

/-- Python `rx.search(s)`: does `r` match anywhere in `s`? -/
def reSearch (r : RE) (s : List Char) : Bool :=
  (List.range (s.length + 1)).any
    (fun pos => !(matchEnds s r pos).isEmpty)

/-- Case-insensitive search (`re.I`): patterns are written lowercase
and the subject is lowercased before matching. -/
def reSearchCI (r : RE) (s : List Char) : Bool :=
  reSearch r (s.map lowerChar)

/-- Optional occurrence (`x?`). -/
def opt (r : RE) : RE := .alt r .eps

/-- One or more whitespace characters (`\s+`). -/
def sPlus : RE := .seq (.pred isPySpace) (.star (.pred isPySpace))

/-- Zero or more whitespace characters (`\s*`). -/
def sStar : RE := .star (.pred isPySpace)

/-! ## The source's patterns

Case-insensitive patterns are written over lowercase text and matched
through `reSearchCI`; the AU pattern has no `re.I` flag and is matched
case-sensitively. -/

/-- `UNAVAILABLE_RX = re.compile(r"not\s+available|sold\s+out", re.I)`. -/
def unavailRE : RE :=
  .alt (.seq (lit "not".data) (.seq sPlus (lit "available".data)))
       (.seq (lit "sold".data) (.seq sPlus (lit "out".data)))

/-- Header pattern for "Art. No":
`\bart\.?\s*no\.?\b|\bart(?:icle)?\s*no\b|\bartnr\b`. -/
def artNoRE : RE :=
  .alt
    (.seq .wordB (.seq (lit "art".data) (.seq (opt (.pred (fun c => c = '.')))
      (.seq sStar (.seq (lit "no".data) (.seq (opt (.pred (fun c => c = '.'))) .wordB))))))
    (.alt
      (.seq .wordB (.seq (lit "art".data) (.seq (opt (lit "icle".data))
        (.seq sStar (.seq (lit "no".data) .wordB)))))
      (.seq .wordB (.seq (lit "artnr".data) .wordB)))

/-- Header pattern for "Article": `\barticle\b|\bdescription\b`. -/
def articleRE : RE :=
  .alt (.seq .wordB (.seq (lit "article".data) .wordB))
       (.seq .wordB (.seq (lit "description".data) .wordB))

/-- Header pattern for "EAN": `\bean\b|\bean[-\s]*code\b`. -/
def eanRE : RE :=
  .alt (.seq .wordB (.seq (lit "ean".data) .wordB))
       (.seq .wordB (.seq (lit "ean".data)
         (.seq (.star (.pred (fun c => c = '-' || isPySpace c))) (.seq (lit "code".data) .wordB))))

/-- Header pattern for "Qty": `\bqty\b|\bquantity\b`. -/
def qtyRE : RE :=
  .alt (.seq .wordB (.seq (lit "qty".data) .wordB))
       (.seq .wordB (.seq (lit "quantity".data) .wordB))

/-- Header pattern for "Price": `\bprice\b|\bunit\s*price\b|\bpreis\b`. -/
def priceRE : RE :=
  .alt (.seq .wordB (.seq (lit "price".data) .wordB))
       (.alt
         (.seq .wordB (.seq (lit "unit".data) (.seq sStar (.seq (lit "price".data) .wordB))))
         (.seq .wordB (.seq (lit "preis".data) .wordB)))

/-- `HEADER_PATTERNS` in its (insertion-ordered) dict order. -/
def headerPatterns : List (String × RE) :=
  [("Art. No", artNoRE), ("Article", articleRE), ("EAN", eanRE), ("Qty", qtyRE), ("Price", priceRE)]

/-- `MIN_COLUMNS = ["Art. No", "Qty", "Price"]`. -/
def MIN_COLUMNS : List String := ["Art. No", "Qty", "Price"]

/-- Digit for `\d`. -/
def digitRE : RE := .pred Char.isDigit

/-- `\bAU\d{7,8}\b` (case-sensitive). -/
def auRE : RE :=
  .seq .wordB (.seq (lit "AU".data)
    (.seq digitRE (.seq digitRE (.seq digitRE (.seq digitRE
      (.seq digitRE (.seq digitRE (.seq digitRE (.seq (opt digitRE) .wordB)))))))))

/-- The non-capturing prefix of `(?:Invoice\s*No[:\s]*)([A-Z0-9\-]+)`,
over lowercase text. -/
def invPrefixRE : RE :=
  .seq (lit "invoice".data) (.seq sStar (.seq (lit "no".data)
    (.star (.pred (fun c => c = ':' || isPySpace c)))))

/-- The capture-group class `[A-Z0-9\-]` under `re.I`, over lowercase text. -/
def invGroupClass (c : Char) : Bool :=
  ('a' ≤ c && c ≤ 'z') || ('0' ≤ c && c ≤ '9') || c = '-'

/-! ## `re.findall` -/

/-- Length of the maximal run of `cls` characters starting at `p`. -/
def groupRun (cls : Char → Bool) (s : List Char) (p : Nat) : Nat :=
  ((s.drop p).takeWhile cls).length

/-- Substring of `s` from `pos` (inclusive) to `e` (exclusive). -/
def sub (s : List Char) (pos e : Nat) : List Char := (s.drop pos).take (e - pos)

/-- Worker for `findAll`: leftmost scan; at a match, emit the (greedy,
i.e. longest) match and resume at its end. -/
def findAllAux (r : RE) (s : List Char) : Nat → Nat → List (List Char)
  | _, 0 => []
  | pos, fuel + 1 =>
    if pos > s.length then []
    else
      match (matchEnds s r pos).max? with
      | none => findAllAux r s (pos + 1) fuel
      | some e => sub s pos e :: findAllAux r s (max e (pos + 1)) fuel

/-- `re.findall` for a groupless pattern: the list of matched substrings. -/
def findAll (r : RE) (s : List Char) : List (List Char) :=
  findAllAux r s 0 (s.length + 1)

/-- Worker for `findAllGrp`: like `findAllAux`, but the pattern is a
prefix regex followed by a nonempty greedy capture-group run of `cls`
characters, and the emitted text is the group, taken from `orig`. -/
def findAllGrpAux (pre : RE) (cls : Char → Bool) (s orig : List Char) :
    Nat → Nat → List (List Char)
  | _, 0 => []
  | pos, fuel + 1 =>
    if pos > s.length then []
    else
      match ((matchEnds s pre pos).filter (fun p => 0 < groupRun cls s p)).max? with
      | none => findAllGrpAux pre cls s orig (pos + 1) fuel
      | some p =>
        let e := p + groupRun cls s p
        sub orig p e :: findAllGrpAux pre cls s orig (max e (pos + 1)) fuel

/-- `re.findall` for a one-group pattern: the list of captured groups. -/
def findAllGrp (pre : RE) (cls : Char → Bool) (s orig : List Char) : List (List Char) :=
  findAllGrpAux pre cls s orig 0 (s.length + 1)

/-- `re.findall(r"\bAU\d{7,8}\b", t)`. -/
def findAU (t : String) : List String :=
  (findAll auRE t.data).map (fun l => ⟨l⟩)

/-- `re.findall(r"(?:Invoice\s*No[:\s]*)([A-Z0-9\-]+)", t, flags=re.I)`:
matched on the lowercased text, groups taken from the original text. -/
def findInv (t : String) : List String :=
  (findAllGrp invPrefixRE invGroupClass (t.data.map lowerChar) t.data).map (fun l => ⟨l⟩)

/-! ## `_normalize_number` -/

/-- `NUM_SANITIZE_RX.sub("", s)`: keep digits, comma, dot, minus. -/
def sanitizeNum (l : List Char) : List Char :=
  l.filter (fun c => c.isDigit || c = ',' || c = '.' || c = '-')

/-- Index of the last occurrence of `c`, if any. -/
def rlastIdx (c : Char) : List Char → Option Nat
  | [] => none
  | a :: as =>
    match rlastIdx c as with
    | some i => some (i + 1)
    | none => if a = c then some 0 else none

/-- Python `s.rfind(c)`: last index of `c`, or `-1` when absent. -/
def rfindC (c : Char) (l : List Char) : Int :=
  (rlastIdx c l).elim (-1) (fun n => (n : Int))

/-- The comma/period disambiguation of `_normalize_number`: if both
appear, keep the later one as decimal separator (removing the other);
otherwise turn a lone comma into a period. -/
def convertSeps (s : List Char) : List Char :=
  if s.contains ',' && s.contains '.' then
    if rfindC ',' s > rfindC '.' s then
      (s.filter (fun c => c ≠ '.')).map (fun c => if c = ',' then '.' else c)
    else
      s.filter (fun c => c ≠ ',')
  else
    s.map (fun c => if c = ',' then '.' else c)

/-- Numeric value of a digit string (most significant first). -/
def digitsToNat (l : List Char) : Nat :=
  l.foldl (fun n c => 10 * n + (c.toNat - '0'.toNat)) 0

/-- Python `float()` on an unsigned decimal string over the residual
alphabet (digits, period): `D`, `D.F` with at least one digit. -/
def parseUnsigned (l : List Char) : Option ℚ :=
  match l.splitOn '.' with
  | [d] => if !d.isEmpty && d.all Char.isDigit then some (mkRat (digitsToNat d) 1) else none
  | [d, f] =>
    if !(d ++ f).isEmpty && d.all Char.isDigit && f.all Char.isDigit then
      some (mkRat (digitsToNat (d ++ f)) (10 ^ f.length))
    else none
  | _ => none

/-- Python `float()` on the residual alphabet (digits, period, minus). -/
def parseFloat (l : List Char) : Option ℚ :=
  match l with
  | '-' :: rest => (parseUnsigned rest).map (fun q => -q)
  | _ => parseUnsigned l

/-- Replacement of a no-break space by an ordinary space. -/
def nbspFix (c : Char) : Char := if c = '\u00A0' then ' ' else c

/-- Replace no-break spaces by ordinary spaces then strip:
`s.replace(nbsp, " ").strip()`. -/
def prepNum (l : List Char) : List Char :=
  pyStrip (l.map nbspFix)

/-- `_normalize_number`: `None` (here `none`) both for unavailability
text and for unparseable residue, a numeric value otherwise. -/
def normalizeNumber (s : String) : Option ℚ :=
  let s1 := prepNum s.data
  if reSearchCI unavailRE s1 then none
  else
    let s2 := sanitizeNum s1
    if s2.isEmpty then none
    else parseFloat (convertSeps s2)

/-! ## `_dedupe_join` and `_extract_au_invoice` -/

/-- Worker for `dedupeJoin`: `seen` is the membership set, `out` the
emission list, both as in the source. -/
def dedupeJoinGo (seen out : List String) : List String → List String
  | [] => out
  | v :: vs =>
    let v' := stripS v
    if v' = "" then dedupeJoinGo seen out vs
    else if v' ∈ seen then dedupeJoinGo seen out vs
    else dedupeJoinGo (v' :: seen) (out ++ [v']) vs

/-- `_dedupe_join`: strip, drop blanks, keep first occurrences, join
with a comma and space. -/
def dedupeJoin (values : List String) : String :=
  String.intercalate ", " (dedupeJoinGo [] [] values)

/-- `_extract_au_invoice`: AU-pattern matches, then invoice-label
matches, de-duplicated and joined. -/
def extractAuInvoice (t : String) : String :=
  dedupeJoin (findAU t ++ findInv t)

/-- The page-level reference code: the top-of-page crop text is
primary and the full page text the fallback (parser lines 150-154). -/
def pageRefCode (top full : String) : String :=
  let a := extractAuInvoice top
  if a = "" then extractAuInvoice full else a

/-! ## `_map_headers`, `_score_header_map`, `_find_header_row` -/

/-- First pattern of `HEADER_PATTERNS` (in dict order) matching the
collapsed header text: the loop body's `break` fires on the first
`rx.search` success, whether or not an assignment happens. -/
def firstPat (h : String) : Option String :=
  (headerPatterns.find? (fun p => reSearchCI p.2 h.data)).map (fun p => p.1)

/-- A column map: assignments `(column index, canonical name)` in
insertion order, mirroring the Python dict `{col_index: canonical}`. -/
abbrev ColMap := List (Nat × String)

/-- Worker for `mapHeaders`: `i` is the current column index, `mapped`
the assignments so far. -/
def mapHeadersGo (i : Nat) (mapped : ColMap) : List String → ColMap
  | [] => mapped
  | h :: rest =>
    let hstr := collapseS h
    match firstPat hstr with
    | none => mapHeadersGo (i + 1) mapped rest
    | some canon =>
      if canon ∈ mapped.map Prod.snd then mapHeadersGo (i + 1) mapped rest
      else mapHeadersGo (i + 1) (mapped ++ [(i, canon)]) rest

/-- `_map_headers`: map raw header cells to canonical names. -/
def mapHeaders (raw : List String) : ColMap := mapHeadersGo 0 [] raw

/-- `_score_header_map`: `(min_columns_matched, total_mapped)`,
counting distinct canonical names. -/
def scoreHeaderMap (colmap : ColMap) : Nat × Nat :=
  let mapped := (colmap.map Prod.snd).dedup
  ((MIN_COLUMNS.filter (fun need => need ∈ mapped)).length, mapped.length)

/-- Strict Python tuple comparison `a < b` on score pairs. -/
def scoreLt (a b : Nat × Nat) : Bool :=
  a.1 < b.1 || (a.1 = b.1 && a.2 < b.2)

/-- One table row as the list of raw header candidates the source
builds in `_find_header_row` line 116. -/
def rowHeaders (row : List String) : List String :=
  row.map (fun x => stripS (collapseS x))

/-- Column map of row `r` of a grid. -/
def rowMap (df : List (List String)) (r : Nat) : ColMap :=
  mapHeaders (rowHeaders (df.getD r []))

/-- Header score of row `r` of a grid. -/
def rowScore (df : List (List String)) (r : Nat) : Nat × Nat :=
  scoreHeaderMap (rowMap df r)

/-- State of `_find_header_row`'s loop: `(row index, colmap, score)`,
with the sentinel `(-1, {}, (0, 0))` as the initial best. -/
abbrev HeaderBest := Int × ColMap × (Nat × Nat)

/-- Fold of the first `n` rows of `_find_header_row`'s scan. -/
def fhrAux (df : List (List String)) (n : Nat) : HeaderBest :=
  (List.range n).foldl
    (fun best r =>
      let colmap := rowMap df r
      let score := rowScore df r
      if scoreLt best.2.2 score then ((r : Int), colmap, score) else best)
    (-1, [], (0, 0))

/-- `_find_header_row` with its `max_scan` parameter (default 6). -/
def findHeaderRow (df : List (List String)) (maxScan : Nat := 6) : HeaderBest :=
  fhrAux df (min maxScan df.length)

/-! ## Table selection (parser lines 169-177) -/

/-- One candidate table: a grid of raw cell strings. -/
abbrev Grid := List (List String)

/-- The fields of the `best` dict the loop keeps per candidate. -/
structure Entry where
  df : Grid
  headerRow : Int
  colmap : ColMap
  score : Nat × Nat
  rows : Nat
deriving DecidableEq, Repr

/-- The per-candidate record built at parser line 177. -/
def mkEntry (t : Grid) : Entry :=
  let b := findHeaderRow t 6
  ⟨t, b.1, b.2.1, b.2.2, t.length⟩

/-- Does candidate `t` replace the current best (line 176)? -/
def replaces (t : Grid) (best : Option Entry) : Bool :=
  match best with
  | none => true
  | some b => scoreLt b.score (mkEntry t).score
      || ((mkEntry t).score = b.score && b.rows < t.length)

/-- One step of the candidate loop: short tables are skipped. -/
def selStep (best : Option Entry) (t : Grid) : Option Entry :=
  if t.length < 2 then best
  else if replaces t best then some (mkEntry t) else best

/-- The candidate-selection loop over the detector's output order. -/
def selectBest (tables : List Grid) : Option Entry :=
  tables.foldl selStep none

/-! ## Row extraction (parser lines 193-233) -/

/-- One accumulated output row. -/
structure Item where
  art : String
  qty : ℚ
  price : ℚ
  page : Nat
  auInvoice : String
deriving DecidableEq, Repr

/-- The per-row cell access map `acc`: canonical name to collapsed cell
text, in column-map insertion order (parser lines 196-198). -/
def accRow (colmap : ColMap) (row : List String) : List (String × String) :=
  colmap.map (fun p => (p.2, collapseS (row.getD p.1 "")))

/-- Field accessor with the source's `if canon in acc else ""` default
and `.strip()`. -/
def accField (acc : List (String × String)) (canon : String) : String :=
  stripS ((acc.lookup canon).getD "")

/-- The lowercased concatenation `row_concat` of all mapped cells. -/
def rowConcat (acc : List (String × String)) : String :=
  ⟨(String.intercalate " " (acc.map Prod.snd)).data.map lowerChar⟩

/-- The quantity value of a data row (parser lines 213-217). -/
def rowQtyVal (acc : List (String × String)) : ℚ :=
  let qtyRaw := accField acc "Qty"
  if reSearchCI unavailRE qtyRaw.data || reSearchCI unavailRE (rowConcat acc).data then 0
  else (normalizeNumber qtyRaw).getD 0

/-- The price value of a data row (parser lines 219-220). -/
def rowPriceVal (acc : List (String × String)) : ℚ :=
  (normalizeNumber (accField acc "Price")).getD 0

/-- Extraction of one data row (parser lines 203-233): `none` when the
skip guard at line 223 fires, otherwise the accumulated item. -/
def extractRow (colmap : ColMap) (row : List String) (page : Nat) (au : String) : Option Item :=
  if accField (accRow colmap row) "Art. No" = "" ∧ rowQtyVal (accRow colmap row) = 0 ∧
      rowPriceVal (accRow colmap row) = 0 then
    none
  else
    some ⟨accField (accRow colmap row) "Art. No", rowQtyVal (accRow colmap row),
      rowPriceVal (accRow colmap row), page, au⟩

/-- All items extracted from the selected table: drop rows up to and
including the header row, then extract each remaining row. -/
def extractItems (e : Entry) (page : Nat) (au : String) : List Item :=
  (e.df.drop ((e.headerRow + 1).toNat)).filterMap (fun row => extractRow e.colmap row page au)

/-! ## Per-page orchestration (parser lines 145-235)

The collaborators are modelled as per-page oracles returning
`Except String` values: `.error` is a raised exception.  The only
`try`/`except` in the source wraps the two `camelot.read_pdf` calls,
so only those errors are absorbed. -/

/-- The collaborator outcomes for one page. -/
structure PageOracle where
  fullText : Except String String
  topText : Except String String
  lattice : Except String (List Grid)
  stream : Except String (List Grid)

/-- Candidate retrieval (parser lines 157-163): lattice first, stream
as fallback on zero candidates; a raise from either is caught and
logged and yields zero candidates. -/
def pageTables (i : Nat) (o : PageOracle) : List Grid × List String :=
  match o.lattice with
  | .error e => ([], ["p" ++ toString i ++ ": camelot error: " ++ e])
  | .ok ts =>
    if ts.isEmpty then
      match o.stream with
      | .error e => ([], ["p" ++ toString i ++ ": camelot error: " ++ e])
      | .ok ts2 => (ts2, [])
    else (ts, [])

/-- Rendering of the partial column map in the "header mapping
incomplete" log entry. -/
def reprColMap (m : ColMap) : String :=
  "\x7b" ++ String.intercalate ", " (m.map (fun p => toString p.1 ++ ": " ++ p.2)) ++ "\x7d"

/-- Processing of one page (parser lines 146-235).  Text extraction is
outside every `try`, so a raise there propagates as `.error`. -/
def processPage (i : Nat) (o : PageOracle) : Except String (List Item × List String) := do
  let text ← o.fullText
  let top ← o.topText
  let au := pageRefCode top text
  let (tables, logs1) := pageTables i o
  if tables.isEmpty then
    pure ([], logs1 ++ ["p" ++ toString i ++ ": no tables found"])
  else
    match selectBest tables with
    | none => pure ([], logs1 ++ ["p" ++ toString i ++ ": table empty/short"])
    | some best =>
      if best.score.1 < MIN_COLUMNS.length then
        pure ([], logs1 ++
          ["p" ++ toString i ++ ": header mapping incomplete → " ++ reprColMap best.colmap])
      else
        let items := extractItems best i au
        pure (items, logs1 ++
          ["p" ++ toString i ++ ": added " ++ toString items.length ++ " rows"])

/-- The document loop (parser lines 145-146): pages processed in
order, rows and logs accumulated; an uncaught raise aborts the run. -/
def processDocument (i : Nat) : List PageOracle → Except String (List Item × List String)
  | [] => pure ([], [])
  | o :: os => do
    let (rs, ls) ← processPage i o
    let (rs2, ls2) ← processDocument (i + 1) os
    pure (rs ++ rs2, ls ++ ls2)

/-! ## Substring occurrence -/

/-- Does `m` occur contiguously inside `l`? -/
def containsSub (m l : List Char) : Bool :=
  (List.range (l.length + 1)).any (fun i => decide ((l.drop i).take m.length = m))

/-! # Claim theorems and supporting lemmas -/

/-- Occurrence as a decomposition. -/
theorem containsSub_iff {m l : List Char} :
    containsSub m l = true ↔ ∃ a b, l = a ++ m ++ b := by
  unfold containsSub
  rw [List.any_eq_true]
  constructor
  · rintro ⟨i, -, hi⟩
    rw [decide_eq_true_eq] at hi
    refine ⟨l.take i, (l.drop i).drop m.length, ?_⟩
    have key : m ++ List.drop m.length (List.drop i l) = List.drop i l := by
      nth_rewrite 1 [← hi]
      exact List.take_append_drop _ _
    conv_lhs => rw [← List.take_append_drop i l]
    rw [List.append_assoc, key]
  · rintro ⟨a, b, rfl⟩
    refine ⟨a.length, ?_, ?_⟩
    · rw [List.mem_range]
      simp only [List.length_append]
      omega
    · rw [decide_eq_true_eq, List.append_assoc, List.drop_left, List.take_left]

/-- Occurrence is preserved by mapping. -/
theorem containsSub_map {m l : List Char} (f : Char → Char)
    (h : containsSub m l = true) : containsSub (m.map f) (l.map f) = true := by
  rw [containsSub_iff] at h ⊢
  obtain ⟨a, b, rfl⟩ := h
  exact ⟨a.map f, b.map f, by simp⟩

/-- A `dropWhile` cannot eat an occurrence whose first character
falsifies the predicate. -/
theorem containsSub_dropWhile {p : Char → Bool} {c0 : Char} {m : List Char}
    (hm : m.head? = some c0) (hc : p c0 = false) :
    ∀ {l : List Char}, containsSub m l = true → containsSub m (l.dropWhile p) = true := by
  intro l h
  rw [containsSub_iff] at h
  obtain ⟨a, b, rfl⟩ := h
  induction a with
  | nil =>
    cases m with
    | nil => simp at hm
    | cons x xs =>
      rw [List.head?_cons, Option.some.injEq] at hm
      subst hm
      rw [containsSub_iff]
      refine ⟨[], b, ?_⟩
      simp [List.dropWhile_cons, hc]
  | cons x a' ih =>
    by_cases hx : p x = true
    · simpa [List.dropWhile_cons, hx] using ih
    · rw [containsSub_iff]
      refine ⟨x :: a', b, ?_⟩
      simp [List.dropWhile_cons, Bool.eq_false_iff.mpr, hx]

/-- Occurrence is preserved by reversal (of the reversed pattern). -/
theorem containsSub_reverse {m l : List Char} (h : containsSub m l = true) :
    containsSub m.reverse l.reverse = true := by
  rw [containsSub_iff] at h ⊢
  obtain ⟨a, b, rfl⟩ := h
  exact ⟨b.reverse, a.reverse, by simp⟩

/-- Stripping cannot eat an occurrence whose boundary characters are
not whitespace. -/
theorem containsSub_pyStrip {m : List Char} {c0 c1 : Char}
    (hm : m.head? = some c0) (hc : isPySpace c0 = false)
    (hm2 : m.reverse.head? = some c1) (hc2 : isPySpace c1 = false)
    {l : List Char} (h : containsSub m l = true) :
    containsSub m (pyStrip l) = true := by
  unfold pyStrip lstrip
  have h1 := containsSub_dropWhile hm hc h
  have h2 := containsSub_reverse (containsSub_dropWhile hm2 hc2 (containsSub_reverse h1))
  simpa using h2

/-- Value of `Char.toLower` at the code-point level. -/
theorem toLower_toNat (c : Char) :
    (Char.toLower c).toNat = if 65 ≤ c.toNat ∧ c.toNat ≤ 90 then c.toNat + 32 else c.toNat := by
  unfold Char.toLower
  split
  · next h =>
    have hv : (c.toNat + 32).isValidChar := by left; have := h.2; omega
    rw [if_pos (by exact ⟨h.1, h.2⟩)]
    simp only [Char.ofNat, Char.ofNatAux]
    rw [dif_pos hv]
    rfl
  · next h =>
    rw [if_neg (by exact fun hc => h ⟨hc.1, hc.2⟩)]

/-- Characters with equal code points are equal. -/
theorem char_toNat_inj {a b : Char} (h : a.toNat = b.toNat) : a = b :=
  Char.ext (UInt32.eq_of_toBitVec_eq (BitVec.eq_of_toNat_eq h))

/-- Code points of the whitespace class. -/
theorem isPySpace_true_toNat {x : Char} (h : isPySpace x = true) :
    x.toNat = 32 ∨ x.toNat = 9 ∨ x.toNat = 10 ∨ x.toNat = 13 ∨
    x.toNat = 11 ∨ x.toNat = 12 ∨ x.toNat = 160 := by
  unfold isPySpace at h
  simp only [Bool.or_eq_true, decide_eq_true_eq] at h
  rcases h with ((((((h | h) | h) | h) | h) | h) | h) <;> subst h <;> simp

/-- Lowercasing does not change whitespace status. -/
theorem isPySpace_lowerChar (c : Char) : isPySpace (lowerChar c) = isPySpace c := by
  unfold lowerChar
  have ht := toLower_toNat c
  by_cases hc : 65 ≤ c.toNat ∧ c.toNat ≤ 90
  · rw [if_pos hc] at ht
    have h1 : isPySpace (Char.toLower c) = false := by
      cases hsp : isPySpace (Char.toLower c)
      · rfl
      · have := isPySpace_true_toNat hsp
        omega
    have h2 : isPySpace c = false := by
      cases hsp : isPySpace c
      · rfl
      · have := isPySpace_true_toNat hsp
        omega
    rw [h1, h2]
  · rw [if_neg hc] at ht
    rw [char_toNat_inj ht]

/-- Lowercasing and no-break-space replacement commute. -/
theorem nbspFix_lowerChar (c : Char) : nbspFix (lowerChar c) = lowerChar (nbspFix c) := by
  have ht := toLower_toNat c
  by_cases hn : c = '\u00A0'
  · subst hn
    have h160 : lowerChar '\u00A0' = '\u00A0' := by
      apply char_toNat_inj
      rw [show lowerChar '\u00A0' = Char.toLower '\u00A0' from rfl, toLower_toNat]
      decide
    rw [h160]
    unfold nbspFix
    rw [if_pos rfl]
    apply char_toNat_inj
    rw [show lowerChar ' ' = Char.toLower ' ' from rfl, toLower_toNat]
    decide
  · have hfix : nbspFix c = c := by unfold nbspFix; rw [if_neg hn]
    rw [hfix]
    have hlow : lowerChar c ≠ '\u00A0' := by
      intro he
      have : (lowerChar c).toNat = 160 := by rw [he]; decide
      unfold lowerChar at this
      rw [ht] at this
      by_cases hc : 65 ≤ c.toNat ∧ c.toNat ≤ 90
      · rw [if_pos hc] at this; omega
      · rw [if_neg hc] at this
        exact hn (char_toNat_inj (by rw [this]; decide))
    unfold nbspFix
    rw [if_neg hlow]

/-- Stripping commutes with lowercasing. -/
theorem pyStrip_map_lowerChar (l : List Char) :
    pyStrip (l.map lowerChar) = (pyStrip l).map lowerChar := by
  have hdw : ∀ x : List Char,
      List.dropWhile isPySpace (x.map lowerChar) = (List.dropWhile isPySpace x).map lowerChar := by
    intro x
    rw [List.dropWhile_map]
    have hfun : (isPySpace ∘ lowerChar) = isPySpace := funext isPySpace_lowerChar
    rw [hfun]
  unfold pyStrip lstrip
  rw [hdw, ← List.map_reverse, hdw, ← List.map_reverse]

/-- Splitting one character off a `drop`/`take` fact. -/
theorem drop_take_cons {l : List Char} {i : Nat} {c : Char} {m : List Char}
    (h : (l.drop i).take (m.length + 1) = c :: m) :
    ∃ hi : i < l.length, l.get ⟨i, hi⟩ = c ∧ (l.drop (i + 1)).take m.length = m := by
  have hne : l.drop i ≠ [] := by
    intro he
    rw [he] at h
    simp at h
  have hi : i < l.length := by
    by_contra hge
    exact hne (List.drop_eq_nil_of_le (by omega))
  have hd := List.drop_eq_getElem_cons hi
  rw [hd] at h
  rw [List.take_succ_cons] at h
  refine ⟨hi, ?_, ?_⟩
  · have := (List.cons.injEq _ _ _ _).mp h
    simpa [List.get_eq_getElem] using this.1
  · exact ((List.cons.injEq _ _ _ _).mp h).2

/-- The literal regex matches an occurrence of its text. -/
theorem matchEnds_lit {l : List Char} :
    ∀ (m : List Char) (i : Nat), (l.drop i).take m.length = m →
      (i + m.length) ∈ matchEnds l (lit m) i := by
  intro m
  induction m with
  | nil => intro i _; simp [lit, matchEnds]
  | cons c m' ih =>
    intro i h
    rw [List.length_cons] at h
    obtain ⟨hi, hc, hrest⟩ := drop_take_cons h
    show _ ∈ matchEnds l (.seq (.pred fun d => d = c) (lit m')) i
    rw [matchEnds, List.mem_flatMap]
    refine ⟨i + 1, ?_, ?_⟩
    · rw [List.get_eq_getElem] at hc
      rw [matchEnds, dif_pos hi, if_pos (by simp [hc])]
      simp
    · have := ih (i + 1) hrest
      have harith : i + (c :: m').length = (i + 1) + m'.length := by simp; omega
      rw [harith]
      exact this

/-- A star accepts its start position. -/
theorem starEnds_self (step : Nat → List Nat) (pos fuel : Nat) :
    pos ∈ starEnds step pos fuel := by
  cases fuel <;> simp [starEnds]

/-- `\s+` accepts a single whitespace character. -/
theorem matchEnds_sPlus {l : List Char} {i : Nat} (hi : i < l.length)
    (hsp : isPySpace (l.get ⟨i, hi⟩) = true) : (i + 1) ∈ matchEnds l sPlus i := by
  show _ ∈ matchEnds l (.seq (.pred isPySpace) (.star (.pred isPySpace))) i
  rw [matchEnds, List.mem_flatMap]
  refine ⟨i + 1, ?_, ?_⟩
  · rw [matchEnds, dif_pos hi, if_pos hsp]
    simp
  · rw [matchEnds]
    exact starEnds_self _ _ _

/-- A `word1 \s+ word2` pattern matches an occurrence of
`word1 ++ " " ++ word2`. -/
theorem matchEnds_wordPair {w1 w2 l : List Char} {i : Nat}
    (h : (l.drop i).take (w1.length + 1 + w2.length) = w1 ++ ' ' :: w2) :
    (i + (w1.length + 1 + w2.length)) ∈
      matchEnds l (.seq (lit w1) (.seq sPlus (lit w2))) i := by
  have h1 : (l.drop i).take w1.length = w1 := by
    have h' := congrArg (List.take w1.length) h
    rw [List.take_take, min_eq_left (by omega),
      List.take_append_of_le_length (le_refl _), List.take_length] at h'
    exact h'
  have h2 : (l.drop (i + w1.length)).take (w2.length + 1) = ' ' :: w2 := by
    have h' := congrArg (List.drop w1.length) h
    rw [List.drop_take, List.drop_drop, List.drop_left] at h'
    rw [show w1.length + 1 + w2.length - w1.length = w2.length + 1 from by omega] at h'
    exact h'
  obtain ⟨hsp_lt, hsp_c, h3⟩ := drop_take_cons h2
  rw [matchEnds, List.mem_flatMap]
  refine ⟨i + w1.length, matchEnds_lit w1 i h1, ?_⟩
  rw [matchEnds, List.mem_flatMap]
  refine ⟨i + w1.length + 1, matchEnds_sPlus hsp_lt (by rw [hsp_c]; decide), ?_⟩
  have := matchEnds_lit w2 (i + w1.length + 1) h3
  have harith : i + (w1.length + 1 + w2.length) = (i + w1.length + 1) + w2.length := by omega
  rw [harith]
  exact this


/-- A match found at a valid start position makes `reSearch` succeed. -/
theorem reSearch_of_mem {l : List Char} {r : RE} {i e : Nat}
    (hm : e ∈ matchEnds l r i) (hi : i ≤ l.length) : reSearch r l = true := by
  unfold reSearch
  rw [List.any_eq_true]
  refine ⟨i, List.mem_range.mpr (by omega), ?_⟩
  have hne := List.ne_nil_of_mem hm
  simp [List.isEmpty_iff, hne]

/-- A listed occurrence gives a `drop`/`take` occurrence at the
prefix length. -/
theorem occ_take (a m b : List Char) :
    ((a ++ m ++ b).drop a.length).take m.length = m := by
  rw [List.append_assoc, List.drop_left, List.take_left]

/-- Any occurrence of the literal texts of `UNAVAILABLE_RX` makes the
pattern search succeed. -/
theorem reSearch_unavail_of_sub {l : List Char}
    (h : containsSub "not available".data l = true ∨ containsSub "sold out".data l = true) :
    reSearch unavailRE l = true := by
  rcases h with h | h
  · rw [containsSub_iff] at h
    obtain ⟨a, b, rfl⟩ := h
    have hocc := occ_take a "not available".data b
    have hocc2 : ((a ++ "not available".data ++ b).drop a.length).take
        ("not".data.length + 1 + "available".data.length) =
        "not".data ++ ' ' :: "available".data := by
      have e1 : "not".data.length + 1 + "available".data.length =
          ("not available".data).length := by decide
      rw [e1, hocc]
      decide
    have hm := matchEnds_wordPair hocc2
    have hm2 : a.length + ("not".data.length + 1 + "available".data.length) ∈
        matchEnds (a ++ "not available".data ++ b) unavailRE a.length := by
      show _ ∈ matchEnds _ (.alt _ _) _
      rw [matchEnds]
      exact List.mem_append_left _ hm
    exact reSearch_of_mem hm2 (by simp)
  · rw [containsSub_iff] at h
    obtain ⟨a, b, rfl⟩ := h
    have hocc := occ_take a "sold out".data b
    have hocc2 : ((a ++ "sold out".data ++ b).drop a.length).take
        ("sold".data.length + 1 + "out".data.length) =
        "sold".data ++ ' ' :: "out".data := by
      have e1 : "sold".data.length + 1 + "out".data.length =
          ("sold out".data).length := by decide
      rw [e1, hocc]
      decide
    have hm := matchEnds_wordPair hocc2
    have hm2 : a.length + ("sold".data.length + 1 + "out".data.length) ∈
        matchEnds (a ++ "sold out".data ++ b) unavailRE a.length := by
      show _ ∈ matchEnds _ (.alt _ _) _
      rw [matchEnds]
      exact List.mem_append_right _ hm
    exact reSearch_of_mem hm2 (by simp)

/-- An occurrence in the lowercased input survives number
preprocessing (no-break-space replacement and stripping). -/
theorem containsSub_prepNum {pat l : List Char} {c0 c1 : Char}
    (hfix : pat.map nbspFix = pat)
    (hm : pat.head? = some c0) (hc : isPySpace c0 = false)
    (hm2 : pat.reverse.head? = some c1) (hc2 : isPySpace c1 = false)
    (h : containsSub pat (l.map lowerChar) = true) :
    containsSub pat ((prepNum l).map lowerChar) = true := by
  have h1 : containsSub pat ((l.map lowerChar).map nbspFix) = true := by
    have hmapped := containsSub_map nbspFix h
    rw [hfix] at hmapped
    exact hmapped
  have hcomm : (l.map lowerChar).map nbspFix = (l.map nbspFix).map lowerChar := by
    rw [List.map_map, List.map_map]
    congr 1
    funext c
    exact nbspFix_lowerChar c
  rw [hcomm] at h1
  have h2 := containsSub_pyStrip hm hc hm2 hc2 h1
  rw [pyStrip_map_lowerChar] at h2
  unfold prepNum
  exact h2


/-- C4 (counterexample): `_normalize_number` does not return a
three-valued result — the unavailability outcome and the unparseable
outcome are the same `none`, not distinct values. -/
theorem unavailable_indistinct_from_unparseable :
    normalizeNumber "not available" = none ∧ normalizeNumber "???" = none ∧
    normalizeNumber "not available" = normalizeNumber "???" := by
  refine ⟨by decide, by decide, by decide⟩

/-- C4 (amended): `_normalize_number` returns an optional float, not a
three-valued type; for every input containing the case-insensitive
substring "not available" or "sold out" it returns `none`, the same
`none` that an unparseable remainder produces. -/
theorem unavailable_text_yields_none (s : String)
    (h : containsSub "not available".data (s.data.map lowerChar) = true ∨
         containsSub "sold out".data (s.data.map lowerChar) = true) :
    normalizeNumber s = none := by
  have hs : reSearchCI unavailRE (prepNum s.data) = true := by
    unfold reSearchCI
    apply reSearch_unavail_of_sub
    rcases h with h | h
    · exact Or.inl (containsSub_prepNum (by decide)
        (by decide : ("not available".data).head? = some 'n') (by decide)
        (by decide : ("not available".data).reverse.head? = some 'e') (by decide) h)
    · exact Or.inr (containsSub_prepNum (by decide)
        (by decide : ("sold out".data).head? = some 's') (by decide)
        (by decide : ("sold out".data).reverse.head? = some 't') (by decide) h)
  simp [normalizeNumber, hs]

/-- Witness for the C4 theorem at a concrete mixed-case input. -/
theorem unavailable_text_yields_none_witness :
    (containsSub "not available".data (" 5 Not Available".data.map lowerChar) = true ∨
     containsSub "sold out".data (" 5 Not Available".data.map lowerChar) = true) ∧
    normalizeNumber " 5 Not Available" = none :=
  ⟨Or.inl (by decide),
   unavailable_text_yields_none " 5 Not Available" (Or.inl (by decide))⟩


/-- C10: an unavailability marker anywhere in the concatenation of the
mapped cells of a data row forces the stored quantity to zero, even
when the Quantity cell itself parses as a number. -/
theorem unavailable_in_row_forces_zero_qty (colmap : ColMap) (row : List String)
    (page : Nat) (au : String) (it : Item)
    (h : containsSub "not available".data
           ((rowConcat (accRow colmap row)).data.map lowerChar) = true ∨
         containsSub "sold out".data
           ((rowConcat (accRow colmap row)).data.map lowerChar) = true)
    (he : extractRow colmap row page au = some it) : it.qty = 0 := by
  have hs : reSearchCI unavailRE (rowConcat (accRow colmap row)).data = true := by
    unfold reSearchCI
    exact reSearch_unavail_of_sub h
  have hq : rowQtyVal (accRow colmap row) = 0 := by
    unfold rowQtyVal
    rw [hs]
    simp
  unfold extractRow at he
  split at he
  · exact absurd he (by simp)
  · rw [Option.some.injEq] at he
    rw [← he]
    exact hq

/-- Witness for the C10 theorem: the marker sits in the description
cell while the Quantity cell holds the parseable "5"; the stored
quantity is still zero. -/
theorem unavailable_in_row_forces_zero_qty_witness :
    extractRow [(0, "Art. No"), (1, "Qty"), (2, "Price"), (3, "Article")]
        ["A1", "5", "2,00", "Not Available"] 1 "" =
      some ⟨"A1", 0, 2, 1, ""⟩ ∧
    (normalizeNumber "5" = some 5) ∧
    (⟨"A1", 0, 2, 1, ""⟩ : Item).qty = 0 := by
  refine ⟨by decide, by decide, ?_⟩
  exact unavailable_in_row_forces_zero_qty
    [(0, "Art. No"), (1, "Qty"), (2, "Price"), (3, "Article")]
    ["A1", "5", "2,00", "Not Available"] 1 "" ⟨"A1", 0, 2, 1, ""⟩
    (Or.inl (by decide)) (by decide)

/-- C2 (counterexample): a data row with the non-blank Quantity cell
"0" but blank article and price cells produces no `LineItem`, because
the skip rule tests parsed numeric values, not blankness. -/
theorem zero_qty_blank_price_row_dropped :
    extractRow [(0, "Art. No"), (1, "Qty"), (2, "Price")] ["", "0", ""] 1 "" = none ∧
    stripS (collapseS "0") ≠ "" := by
  refine ⟨by decide, by decide⟩

/-- C2 (amended): a data row produces no `LineItem` exactly when its
article cell is blank and both its parsed quantity and parsed price
values equal zero; "0" in the Quantity cell with a nonzero price still
yields an item, but with a blank or zero price it does not. -/
theorem row_skipped_iff_blank_art_and_zero_values :
    (∀ (colmap : ColMap) (row : List String) (page : Nat) (au : String),
        extractRow colmap row page au = none ↔
          (accField (accRow colmap row) "Art. No" = "" ∧
           rowQtyVal (accRow colmap row) = 0 ∧ rowPriceVal (accRow colmap row) = 0)) ∧
    extractRow [(0, "Art. No"), (1, "Qty"), (2, "Price")] ["", "0", "5,00"] 1 "" =
      some ⟨"", 0, 5, 1, ""⟩ := by
  constructor
  · intro colmap row page au
    unfold extractRow
    split
    · next h => simp only [true_iff]; exact h
    · next h =>
      constructor
      · intro habs
        exact absurd habs (by simp)
      · intro hconj
        exact absurd hconj h
  · decide

/-- The separator with the later last occurrence (the decimal
separator of `_normalize_number`'s two-separator case). -/
def laterSep (s : List Char) : Char :=
  if rfindC ',' s > rfindC '.' s then ',' else '.'

/-- The separator with the earlier last occurrence (removed as a
thousands separator). -/
def earlierSep (s : List Char) : Char :=
  if rfindC ',' s > rfindC '.' s then '.' else ','

/-- C5: when both separators appear the later one becomes the decimal
point and the earlier one is removed; when only a comma appears it
becomes the decimal separator; and the three spec examples all
normalize to 1109.20. -/
theorem later_separator_is_decimal :
    (∀ s : List Char, s.contains ',' = true → s.contains '.' = true →
        convertSeps s =
          (s.filter (fun c => c ≠ earlierSep s)).map
            (fun c => if c = laterSep s then '.' else c)) ∧
    (∀ s : List Char, s.contains ',' = true → s.contains '.' = false →
        convertSeps s = s.map (fun c => if c = ',' then '.' else c)) ∧
    normalizeNumber "1.109,20" = some (mkRat 5546 5) ∧
    normalizeNumber "1,109.20" = some (mkRat 5546 5) ∧
    normalizeNumber "1109.20" = some (mkRat 5546 5) ∧
    normalizeNumber "1109,20" = some (mkRat 5546 5) := by
  refine ⟨?_, ?_, by decide, by decide, by decide, by decide⟩
  · intro s h1 h2
    unfold convertSeps laterSep earlierSep
    rw [if_pos (by rw [h1, h2]; rfl)]
    by_cases hcmp : rfindC ',' s > rfindC '.' s
    · rw [if_pos hcmp, if_pos hcmp, if_pos hcmp]
    · rw [if_neg hcmp, if_neg hcmp, if_neg hcmp]
      have hid : ∀ x : List Char, x.map (fun c => if c = '.' then '.' else c) = x := by
        intro x
        induction x with
        | nil => rfl
        | cons a t ih =>
          simp only [List.map_cons, ih]
          congr 1
          by_cases hdot : a = '.'
          · rw [if_pos hdot, hdot]
          · rw [if_neg hdot]
      rw [hid]
  · intro s _ h2
    unfold convertSeps
    rw [if_neg (by rw [h2]; simp)]

/-- Witness for the C5 theorem: the two-separator rule at the spec's
first example, and the comma-only rule at "1109,20". -/
theorem later_separator_is_decimal_witness :
    ("1.109,20".data.contains ',' = true) ∧ ("1.109,20".data.contains '.' = true) ∧
    convertSeps "1.109,20".data =
      ("1.109,20".data.filter (fun c => c ≠ earlierSep "1.109,20".data)).map
        (fun c => if c = laterSep "1.109,20".data then '.' else c) ∧
    ("1109,20".data.contains ',' = true) ∧ ("1109,20".data.contains '.' = false) ∧
    convertSeps "1109,20".data =
      "1109,20".data.map (fun c => if c = ',' then '.' else c) :=
  ⟨by decide, by decide,
   later_separator_is_decimal.1 "1.109,20".data (by decide) (by decide),
   by decide, by decide,
   later_separator_is_decimal.2.1 "1109,20".data (by decide) (by decide)⟩


/-- The header-mapping loop only ever appends assignments. -/
theorem mapHeadersGo_mono :
    ∀ (hs : List String) (i : Nat) (mapped : ColMap) (j : Nat) (c : String),
      (j, c) ∈ mapped → (j, c) ∈ mapHeadersGo i mapped hs := by
  intro hs
  induction hs with
  | nil =>
    intro i mapped j c h
    simpa [mapHeadersGo] using h
  | cons hd tl ih =>
    intro i mapped j c h
    simp only [mapHeadersGo]
    rcases hfp : firstPat (collapseS hd) with _ | cF <;> dsimp only
    · exact ih _ _ _ _ h
    · by_cases hmem : cF ∈ mapped.map Prod.snd
      · rw [if_pos hmem]
        exact ih _ _ _ _ h
      · rw [if_neg hmem]
        exact ih _ _ _ _ (List.mem_append_left _ h)

/-- The header-mapping loop over a split column list. -/
theorem mapHeadersGo_append :
    ∀ (xs ys : List String) (i : Nat) (mapped : ColMap),
      mapHeadersGo i mapped (xs ++ ys) =
        mapHeadersGo (i + xs.length) (mapHeadersGo i mapped xs) ys := by
  intro xs
  induction xs with
  | nil => intro ys i mapped; simp [mapHeadersGo]
  | cons hd tl ih =>
    intro ys i mapped
    have hlen : i + (hd :: tl).length = i + 1 + tl.length := by simp; omega
    simp only [List.cons_append, mapHeadersGo]
    rw [hlen]
    rcases hfp : firstPat (collapseS hd) with _ | cF <;> dsimp only
    · rw [show tl.append ys = tl ++ ys from rfl]
      exact ih ys (i + 1) mapped
    · by_cases hmem : cF ∈ mapped.map Prod.snd
      · rw [if_pos hmem, if_pos hmem, show tl.append ys = tl ++ ys from rfl]
        exact ih ys (i + 1) mapped
      · rw [if_neg hmem, if_neg hmem, show tl.append ys = tl ++ ys from rfl]
        exact ih ys (i + 1) (mapped ++ [(i, cF)])

/-- Every assignment made by the loop records the first matching
pattern of its own column. -/
theorem mapHeadersGo_mem :
    ∀ (hs : List String) (i : Nat) (mapped : ColMap) (j : Nat) (c : String),
      (j, c) ∈ mapHeadersGo i mapped hs →
      (j, c) ∈ mapped ∨
        (i ≤ j ∧ j < i + hs.length ∧
          firstPat (collapseS (hs.getD (j - i) "")) = some c) := by
  intro hs
  induction hs with
  | nil =>
    intro i mapped j c h
    simp only [mapHeadersGo] at h
    exact Or.inl h
  | cons hd tl ih =>
    intro i mapped j c h
    simp only [mapHeadersGo] at h
    rcases hfp : firstPat (collapseS hd) with _ | cF <;> rw [hfp] at h <;> dsimp only at h
    · rcases ih _ _ _ _ h with h1 | ⟨hle, hlt, hfp2⟩
      · exact Or.inl h1
      · refine Or.inr ⟨by omega, by simp; omega, ?_⟩
        rw [show j - i = (j - (i + 1)) + 1 from by omega]
        simpa using hfp2
    · have handle : ∀ mapped2 : ColMap,
          ((j, c) ∈ mapped2 → (j, c) ∈ mapped ∨ (j, c) = (i, cF)) →
          (j, c) ∈ mapHeadersGo (i + 1) mapped2 tl →
          (j, c) ∈ mapped ∨
            (i ≤ j ∧ j < i + (hd :: tl).length ∧
              firstPat (collapseS ((hd :: tl).getD (j - i) "")) = some c) := by
        intro mapped2 hsub hgo
        rcases ih _ _ _ _ hgo with h1 | ⟨hle, hlt, hfp2⟩
        · rcases hsub h1 with h2 | h2
          · exact Or.inl h2
          · rw [Prod.mk.injEq] at h2
            refine Or.inr ⟨by omega, by simp; omega, ?_⟩
            rw [show j - i = 0 from by omega]
            simp only [List.getD_cons_zero]
            rw [hfp, h2.2]
        · refine Or.inr ⟨by omega, by simp; omega, ?_⟩
          rw [show j - i = (j - (i + 1)) + 1 from by omega]
          simpa using hfp2
      by_cases hmem : cF ∈ mapped.map Prod.snd
      · rw [if_pos hmem] at h
        exact handle mapped (fun hx => Or.inl hx) h
      · rw [if_neg hmem] at h
        refine handle (mapped ++ [(i, cF)]) ?_ h
        intro hx
        rcases List.mem_append.mp hx with hx | hx
        · exact Or.inl hx
        · exact Or.inr (by simpa using hx)


/-- C8: the column map's canonical names are pairwise distinct — a
later matching column never duplicates an assigned field. -/
theorem map_headers_values_nodup (raw : List String) :
    ((mapHeaders raw).map Prod.snd).Nodup := by
  have go_nodup : ∀ (hs : List String) (i : Nat) (mapped : ColMap),
      (mapped.map Prod.snd).Nodup → ((mapHeadersGo i mapped hs).map Prod.snd).Nodup := by
    intro hs
    induction hs with
    | nil => intro i mapped h; simpa [mapHeadersGo] using h
    | cons hd tl ih =>
      intro i mapped h
      simp only [mapHeadersGo]
      rcases hfp : firstPat (collapseS hd) with _ | cF <;> dsimp only
      · exact ih _ _ h
      · by_cases hmem : cF ∈ mapped.map Prod.snd
        · rw [if_pos hmem]
          exact ih _ _ h
        · rw [if_neg hmem]
          refine ih _ _ ?_
          rw [List.map_append]
          simp [List.nodup_append, h, hmem]
  exact go_nodup raw 0 [] (by simp)

/-- C7 (counterexample): the second column matches the Price pattern
and Price is unassigned, yet the column stays unmapped, because its
first matching pattern ("Art. No") is already taken and the loop
breaks there. -/
theorem column_blocked_by_first_matching_pattern :
    mapHeaders ["Art. No", "Art. No Price"] = [(0, "Art. No")] ∧
    reSearchCI priceRE (collapseS "Art. No Price").data = true ∧
    ¬ ((1, "Price") ∈ mapHeaders ["Art. No", "Art. No Price"]) :=
  ⟨by decide, by decide, by decide⟩

/-- C7 (amended): a column is assigned, if at all, only the FIRST
field (in pattern order) whose pattern matches its collapsed text, and
only when that field is not already assigned to an earlier column; a
column whose first matching pattern belongs to a taken field is left
unmapped even if a later pattern also matches. -/
theorem map_headers_first_pattern_only :
    (∀ (hs : List String) (i : Nat) (c : String), (i, c) ∈ mapHeaders hs →
        i < hs.length ∧ firstPat (collapseS (hs.getD i "")) = some c) ∧
    (∀ (hs : List String) (i : Nat) (c : String), i < hs.length →
        firstPat (collapseS (hs.getD i "")) = some c →
        c ∉ (mapHeaders (hs.take i)).map Prod.snd →
        (i, c) ∈ mapHeaders hs) := by
  constructor
  · intro hs i c h
    rcases mapHeadersGo_mem hs 0 [] i c h with h1 | ⟨-, hlt, hfp⟩
    · simp at h1
    · refine ⟨by omega, ?_⟩
      simpa using hfp
  · intro hs i c hlt hfp hfree
    unfold mapHeaders at hfree
    have hsplit : hs = hs.take (i + 1) ++ hs.drop (i + 1) := (List.take_append_drop _ _).symm
    have hget : hs.getD i "" = hs.get ⟨i, hlt⟩ := by
      rw [List.getD_eq_getElem?_getD, List.getElem?_eq_getElem hlt]
      rfl
    have htake : hs.take (i + 1) = hs.take i ++ [hs.getD i ""] := by
      rw [List.take_succ, List.getElem?_eq_getElem hlt]
      rw [hget]
      rfl
    have hlen_take : (hs.take i).length = i := by
      rw [List.length_take]
      omega
    have hstep : (i, c) ∈ mapHeadersGo 0 [] (hs.take (i + 1)) := by
      rw [htake, mapHeadersGo_append, hlen_take]
      simp only [Nat.zero_add, mapHeadersGo]
      rw [hfp]
      dsimp only
      rw [if_neg hfree]
      exact List.mem_append_right _ (by simp)
    have hfull : mapHeaders hs =
        mapHeadersGo (0 + (hs.take (i + 1)).length)
          (mapHeadersGo 0 [] (hs.take (i + 1))) (hs.drop (i + 1)) := by
      rw [mapHeaders]
      conv_lhs => rw [hsplit]
      exact mapHeadersGo_append _ _ _ _
    rw [hfull]
    exact mapHeadersGo_mono _ _ _ _ _ hstep

/-- Witness for the C7 theorem: the second column's first matching
pattern is Qty, Qty is free, so that column is assigned Qty. -/
theorem map_headers_first_pattern_only_witness :
    ((1, "Qty") ∈ mapHeaders ["Art. No", "Qty"]) ∧
    (1 < (["Art. No", "Qty"] : List String).length ∧
      firstPat (collapseS ((["Art. No", "Qty"] : List String).getD 1 "")) = some "Qty") := by
  have hmem := map_headers_first_pattern_only.2 ["Art. No", "Qty"] 1 "Qty"
    (by decide) (by decide) (by decide)
  exact ⟨hmem, map_headers_first_pattern_only.1 ["Art. No", "Qty"] 1 "Qty" hmem⟩


/-- Specification-shaped first-occurrence de-duplication: keep each
value's first occurrence, erase its later repeats. -/
def firstDedup : List String → List String
  | [] => []
  | v :: vs => v :: firstDedup (vs.filter (fun w => w ≠ v))
termination_by l => l.length
decreasing_by
  simp only [List.length_cons]
  exact Nat.lt_succ_of_le (List.length_filter_le _ _)

/-- The seen-set loop of `_dedupe_join` computes first-occurrence
de-duplication of the stripped, non-blank values. -/
theorem dedupeJoinGo_spec :
    ∀ (vs seen out : List String),
      dedupeJoinGo seen out vs =
        out ++ firstDedup (((vs.map stripS).filter (fun v => v ≠ "")).filter
          (fun v => v ∉ seen)) := by
  intro vs
  induction vs with
  | nil => intro seen out; simp [dedupeJoinGo, firstDedup]
  | cons v vs ih =>
    intro seen out
    by_cases hblank : stripS v = ""
    · have hL : dedupeJoinGo seen out (v :: vs) = dedupeJoinGo seen out vs := by
        simp [dedupeJoinGo, hblank]
      rw [hL, ih]
      simp only [List.map_cons, List.filter_cons]
      rw [if_neg (by simp [hblank])]
    · by_cases hseen : stripS v ∈ seen
      · have hL : dedupeJoinGo seen out (v :: vs) = dedupeJoinGo seen out vs := by
          simp [dedupeJoinGo, hblank, hseen]
        rw [hL, ih]
        simp only [List.map_cons, List.filter_cons]
        rw [if_pos (by simp [hblank])]
        simp only [List.filter_cons]
        rw [if_neg (by simp [hseen])]
      · have hL : dedupeJoinGo seen out (v :: vs) =
            dedupeJoinGo (stripS v :: seen) (out ++ [stripS v]) vs := by
          simp [dedupeJoinGo, hblank, hseen]
        rw [hL, ih]
        simp only [List.map_cons, List.filter_cons]
        rw [if_pos (by simp [hblank])]
        simp only [List.filter_cons]
        rw [if_pos (by simp [hseen])]
        have hcomb :
            ((vs.map stripS).filter (fun w => w ≠ "")).filter
                (fun w => w ∉ stripS v :: seen) =
              (((vs.map stripS).filter (fun w => w ≠ "")).filter (fun w => w ∉ seen)).filter
                (fun w => w ≠ stripS v) := by
          rw [List.filter_filter, List.filter_filter, List.filter_filter]
          apply List.filter_congr
          intro w _
          by_cases h1 : w = stripS v
          · simp [h1]
          · by_cases h2 : w ∈ seen <;> by_cases h3 : w = "" <;> simp [h1, h2, h3]
        rw [hcomb]
        have hfd : firstDedup (stripS v ::
            (((vs.map stripS).filter (fun w => w ≠ "")).filter (fun w => w ∉ seen))) =
          stripS v :: firstDedup
            ((((vs.map stripS).filter (fun w => w ≠ "")).filter (fun w => w ∉ seen)).filter
              (fun w => w ≠ stripS v)) := by
          rw [firstDedup]
        rw [hfd]
        simp

/-- C9: `_dedupe_join` keeps first occurrences in order (equal to the
specification-shaped `firstDedup` of the stripped non-blank values,
joined with ", "), and on the spec's example text the AU matches
precede the invoice-label match and the duplicate AU code is dropped. -/
theorem reference_codes_dedup_first_order :
    (∀ vs : List String, dedupeJoin vs =
        String.intercalate ", " (firstDedup ((vs.map stripS).filter (fun v => v ≠ "")))) ∧
    extractAuInvoice "Ref AU1234567 pos 2 AU1234567 Invoice No: INV-99" =
      "AU1234567, INV-99" := by
  constructor
  · intro vs
    unfold dedupeJoin
    rw [dedupeJoinGo_spec]
    have hid : ((vs.map stripS).filter (fun v => v ≠ "")).filter
        (fun v => v ∉ ([] : List String)) =
        (vs.map stripS).filter (fun v => v ≠ "") := by
      apply List.filter_eq_self.mpr
      intro a _
      simp
    rw [hid]
    simp
  · decide


/-- C1 (counterexample): the scan bound is 6, not 50 — with the true
header at row index 6 (and every other row scoring below it), the scan
keeps the `(-1, empty, (0, 0))` sentinel and the header is not found,
although index 6 is far below 50. -/
theorem header_row_at_index_six_missed :
    findHeaderRow [["w", "x", "y"], ["w", "x", "y"], ["w", "x", "y"], ["w", "x", "y"], ["w", "x", "y"], ["w", "x", "y"], ["Art. No", "Qty", "Price"], ["B1", "2", "3,00"]] 6 = (-1, [], (0, 0)) ∧
    rowScore [["w", "x", "y"], ["w", "x", "y"], ["w", "x", "y"], ["w", "x", "y"], ["w", "x", "y"], ["w", "x", "y"], ["Art. No", "Qty", "Price"], ["B1", "2", "3,00"]] 6 = (3, 3) ∧
    (∀ r, r < 8 → r ≠ 6 → scoreLt (rowScore [["w", "x", "y"], ["w", "x", "y"], ["w", "x", "y"], ["w", "x", "y"], ["w", "x", "y"], ["w", "x", "y"], ["Art. No", "Qty", "Price"], ["B1", "2", "3,00"]] r) (rowScore [["w", "x", "y"], ["w", "x", "y"], ["w", "x", "y"], ["w", "x", "y"], ["w", "x", "y"], ["w", "x", "y"], ["Art. No", "Qty", "Price"], ["B1", "2", "3,00"]] 6) = true) := by
  refine ⟨by decide, by decide, by decide⟩

/-- One unrolling of the header-row scan. -/
theorem fhrAux_succ (df : Grid) (n : Nat) :
    fhrAux df (n + 1) =
      (if scoreLt (fhrAux df n).2.2 (rowScore df n) then
        ((n : Int), rowMap df n, rowScore df n)
      else fhrAux df n) := by
  unfold fhrAux
  rw [List.range_succ, List.foldl_append]
  rfl

/-- The scan state is the sentinel or some already-scanned row. -/
theorem fhrAux_cases (df : Grid) :
    ∀ n : Nat, fhrAux df n = ((-1 : Int), ([] : ColMap), ((0, 0) : Nat × Nat)) ∨
      ∃ s, s < n ∧ fhrAux df n = ((s : Int), rowMap df s, rowScore df s) := by
  intro n
  induction n with
  | zero => exact Or.inl rfl
  | succ n ih =>
    rw [fhrAux_succ]
    by_cases hrep : scoreLt (fhrAux df n).2.2 (rowScore df n) = true
    · rw [if_pos hrep]
      exact Or.inr ⟨n, by omega, rfl⟩
    · rw [if_neg hrep]
      rcases ih with h | ⟨s, hs, h⟩
      · exact Or.inl h
      · exact Or.inr ⟨s, by omega, h⟩

/-- C1 (amended): the selector scans at most the first 6 rows (the
source's `max_scan` default), computing a column map and score for
each, and retains the strictly best-scoring row (ties keep the first);
a header row at an index below 6 whose score strictly dominates is
found — one at index 6 or above is not scanned. -/
theorem find_header_row_scans_six (df : Grid) (r : Nat)
    (hr : r < min 6 df.length)
    (hpos : scoreLt (0, 0) (rowScore df r) = true)
    (hbefore : ∀ s, s < r → scoreLt (rowScore df s) (rowScore df r) = true)
    (hafter : ∀ s, s < min 6 df.length → r < s → scoreLt (rowScore df r) (rowScore df s) = false) :
    findHeaderRow df 6 = ((r : Int), rowMap df r, rowScore df r) := by
  have hat : fhrAux df (r + 1) = ((r : Int), rowMap df r, rowScore df r) := by
    rw [fhrAux_succ]
    rcases fhrAux_cases df r with h | ⟨s, hs, h⟩
    · rw [h]
      rw [if_pos hpos]
    · rw [h]
      rw [if_pos (hbefore s hs)]
  have hstay : ∀ m, r + 1 ≤ m → m ≤ min 6 df.length →
      fhrAux df m = ((r : Int), rowMap df r, rowScore df r) := by
    intro m
    induction m with
    | zero => intro h1 _; omega
    | succ m ih =>
      intro h1 h2
      rcases Nat.lt_or_ge (r + 1) (m + 1) with hlt | hge
      · have hm := ih (by omega) (by omega)
        rw [fhrAux_succ, hm]
        rw [if_neg (by rw [hafter m (by omega) (by omega)]; simp)]
      · have : m = r := by omega
        subst this
        exact hat
  unfold findHeaderRow
  exact hstay _ (by omega) (le_refl _)

/-- Witness for the C1 theorem: a header at row index 1 (below 6) with
the strictly best score is retained. -/
theorem find_header_row_scans_six_witness :
    findHeaderRow [["x", "y", "z"], ["Art. No", "Qty", "Price"], ["a", "1", "2"]] 6 =
      (1, [(0, "Art. No"), (1, "Qty"), (2, "Price")], (3, 3)) := by
  have h := find_header_row_scans_six
    [["x", "y", "z"], ["Art. No", "Qty", "Price"], ["a", "1", "2"]] 1
    (by decide) (by decide) (by decide) (by decide)
  rw [h]
  decide


/-- The candidate fold either keeps its accumulator or returns some
eligible candidate's entry. -/
theorem foldl_selStep_cases :
    ∀ (l : List Grid) (acc : Option Entry),
      l.foldl selStep acc = acc ∨
        ∃ d ∈ l, 2 ≤ d.length ∧ l.foldl selStep acc = some (mkEntry d) := by
  intro l
  induction l with
  | nil => intro acc; exact Or.inl rfl
  | cons d l ih =>
    intro acc
    rw [List.foldl_cons]
    have hstep : selStep acc d = acc ∨ (2 ≤ d.length ∧ selStep acc d = some (mkEntry d)) := by
      unfold selStep
      by_cases hlen : d.length < 2
      · rw [if_pos hlen]
        exact Or.inl rfl
      · rw [if_neg hlen]
        by_cases hrep : replaces d acc = true
        · rw [if_pos hrep]
          exact Or.inr ⟨by omega, rfl⟩
        · rw [if_neg hrep]
          exact Or.inl rfl
    rcases ih (selStep acc d) with h | ⟨e, he, helen, h⟩
    · rcases hstep with h2 | ⟨hlen, h2⟩
      · rw [h, h2]
        exact Or.inl rfl
      · rw [h, h2]
        exact Or.inr ⟨d, List.mem_cons_self _ _, hlen, rfl⟩
    · exact Or.inr ⟨e, List.mem_cons_of_mem _ he, helen, h⟩

/-- An already-selected entry survives a suffix none of whose eligible
candidates beats it. -/
theorem foldl_selStep_stays :
    ∀ (l : List Grid) (e : Entry),
      (∀ d ∈ l, 2 ≤ d.length → replaces d (some e) = false) →
      l.foldl selStep (some e) = some e := by
  intro l
  induction l with
  | nil => intro e _; rfl
  | cons d l ih =>
    intro e h
    rw [List.foldl_cons]
    have hstep : selStep (some e) d = some e := by
      unfold selStep
      by_cases hlen : d.length < 2
      · rw [if_pos hlen]
      · rw [if_neg hlen]
        rw [if_neg (by rw [h d (List.mem_cons_self _ _) (by omega)]; simp)]
    rw [hstep]
    exact ih e (fun d2 hd2 => h d2 (List.mem_cons_of_mem _ hd2))

/-- C6: across a page's candidates, the loop picks the candidate whose
best header score beats (in the lexicographic order, with the larger
row count breaking score ties and the first-encountered candidate
breaking full ties) every earlier eligible candidate and is beaten by
no later one. -/
theorem selector_picks_lex_best (l1 l2 : List Grid) (c : Grid)
    (hc : 2 ≤ c.length)
    (hbefore : ∀ d ∈ l1, 2 ≤ d.length → replaces c (some (mkEntry d)) = true)
    (hafter : ∀ d ∈ l2, 2 ≤ d.length → replaces d (some (mkEntry c)) = false) :
    selectBest (l1 ++ c :: l2) = some (mkEntry c) := by
  unfold selectBest
  rw [List.foldl_append, List.foldl_cons]
  have hstepc : selStep (List.foldl selStep none l1) c = some (mkEntry c) := by
    rcases foldl_selStep_cases l1 none with h | ⟨d, hd, hdlen, h⟩
    · rw [h]
      unfold selStep
      rw [if_neg (by omega)]
      rw [if_pos (by unfold replaces; rfl)]
    · rw [h]
      unfold selStep
      rw [if_neg (by omega)]
      rw [if_pos (hbefore d hd hdlen)]
  rw [hstepc]
  exact foldl_selStep_stays l2 (mkEntry c) hafter

/-- Witness for the C6 theorem: a candidate scoring (3, 5) with only 2
rows is selected over an earlier candidate scoring (2, 2) with 4 rows. -/
theorem selector_picks_lex_best_witness :
    selectBest
      [[["Qty", "Price"], ["1", "2"], ["3", "4"], ["5", "6"]],
       [["Art. No", "Article", "EAN", "Qty", "Price"], ["a", "b", "c", "d", "e"]]] =
      some (mkEntry [["Art. No", "Article", "EAN", "Qty", "Price"], ["a", "b", "c", "d", "e"]]) := by
  have h := selector_picks_lex_best
    [[["Qty", "Price"], ["1", "2"], ["3", "4"], ["5", "6"]]] []
    [["Art. No", "Article", "EAN", "Qty", "Price"], ["a", "b", "c", "d", "e"]]
    (by decide) (by decide) (by decide)
  exact h


/-- A page whose two text extractions succeed can never abort the run:
every remaining branch of the page processing returns `.ok`. -/
theorem processPage_ok (i : Nat) (o : PageOracle) (tf tt : String)
    (hf : o.fullText = Except.ok tf) (ht : o.topText = Except.ok tt) :
    ∃ r, processPage i o = Except.ok r := by
  unfold processPage
  rw [hf, ht]
  show ∃ r, (do
    let au := pageRefCode tt tf
    let (tables, logs1) := pageTables i o
    if tables.isEmpty then
      pure ([], logs1 ++ ["p" ++ toString i ++ ": no tables found"])
    else
      match selectBest tables with
      | none => pure ([], logs1 ++ ["p" ++ toString i ++ ": table empty/short"])
      | some best =>
        if best.score.1 < MIN_COLUMNS.length then
          pure ([], logs1 ++
            ["p" ++ toString i ++ ": header mapping incomplete → " ++ reprColMap best.colmap])
        else
          let items := extractItems best i au
          pure (items, logs1 ++
            ["p" ++ toString i ++ ": added " ++ toString items.length ++ " rows"]) :
      Except String (List Item × List String)) = Except.ok r
  rcases hpt : pageTables i o with ⟨tables, logs1⟩
  dsimp only
  by_cases hemp : tables.isEmpty
  · exact ⟨_, by rw [if_pos hemp]; rfl⟩
  · rcases hsel : selectBest tables with _ | best
    · refine ⟨([], logs1 ++ ["p" ++ toString i ++ ": table empty/short"]), ?_⟩
      rw [if_neg hemp]
      rfl
    · by_cases hsc : best.score.1 < MIN_COLUMNS.length
      · refine ⟨([], logs1 ++
          ["p" ++ toString i ++ ": header mapping incomplete → " ++ reprColMap best.colmap]), ?_⟩
        rw [if_neg hemp]
        dsimp only
        rw [if_pos hsc]
        rfl
      · refine ⟨(extractItems best i (pageRefCode tt tf), logs1 ++
          ["p" ++ toString i ++ ": added " ++
            toString (extractItems best i (pageRefCode tt tf)).length ++ " rows"]), ?_⟩
        rw [if_neg hemp]
        dsimp only
        rw [if_neg hsc]
        rfl

/-- C3 (amended): when the text extractions succeed (the text
extractor's interface never raises), the run never aborts — a
detector raise is caught at the page boundary, logged as a camelot
error, contributes zero rows, and processing continues with the
remaining pages. -/
theorem detector_errors_absorbed :
    (∀ (os : List PageOracle) (i : Nat),
        (∀ o ∈ os, (∃ t, o.fullText = Except.ok t) ∧ (∃ t, o.topText = Except.ok t)) →
        ∃ res, processDocument i os = Except.ok res) ∧
    (∀ (i : Nat) (o : PageOracle) (tf tt e : String),
        o.fullText = Except.ok tf → o.topText = Except.ok tt →
        o.lattice = Except.error e →
        processPage i o = Except.ok ([],
          ["p" ++ toString i ++ ": camelot error: " ++ e,
           "p" ++ toString i ++ ": no tables found"])) := by
  constructor
  · intro os
    induction os with
    | nil => intro i _; exact ⟨([], []), rfl⟩
    | cons o os ih =>
      intro i h
      obtain ⟨⟨tf, hf⟩, ⟨tt, ht⟩⟩ := h o (List.mem_cons_self _ _)
      obtain ⟨⟨rs, ls⟩, hpage⟩ := processPage_ok i o tf tt hf ht
      obtain ⟨⟨rs2, ls2⟩, hdoc⟩ := ih (i + 1) (fun o2 ho2 => h o2 (List.mem_cons_of_mem _ ho2))
      refine ⟨(rs ++ rs2, ls ++ ls2), ?_⟩
      show (do
        let (a, b) ← processPage i o
        let (a2, b2) ← processDocument (i + 1) os
        pure (a ++ a2, b ++ b2) : Except String (List Item × List String)) = _
      rw [hpage, hdoc]
      rfl
  · intro i o tf tt e hf ht hl
    unfold processPage
    rw [hf, ht]
    have htab : pageTables i o = ([], ["p" ++ toString i ++ ": camelot error: " ++ e]) := by
      unfold pageTables
      rw [hl]
    show (do
      let au := pageRefCode tt tf
      let (tables, logs1) := pageTables i o
      if tables.isEmpty then
        pure ([], logs1 ++ ["p" ++ toString i ++ ": no tables found"])
      else
        match selectBest tables with
        | none => pure ([], logs1 ++ ["p" ++ toString i ++ ": table empty/short"])
        | some best =>
          if best.score.1 < MIN_COLUMNS.length then
            pure ([], logs1 ++
              ["p" ++ toString i ++ ": header mapping incomplete → " ++ reprColMap best.colmap])
          else
            let items := extractItems best i au
            pure (items, logs1 ++
              ["p" ++ toString i ++ ": added " ++ toString items.length ++ " rows"]) :
        Except String (List Item × List String)) = _
    rw [htab]
    rfl

/-- Witness for the C3 theorem: a two-page document whose first page's
detector raises still completes, with the camelot log entry, zero rows
from page 1 and one row from page 2. -/
theorem detector_errors_absorbed_witness :
    processDocument 1
      [⟨Except.ok "", Except.ok "", Except.error "bad page", Except.ok []⟩,
       ⟨Except.ok "", Except.ok "",
        Except.ok [[["Art. No", "Qty", "Price"], ["B1", "2", "3,00"]]], Except.ok []⟩] =
      Except.ok ([⟨"B1", 2, 3, 2, ""⟩],
        ["p1: camelot error: bad page", "p1: no tables found", "p2: added 1 rows"]) ∧
    processPage 1 (⟨Except.ok "", Except.ok "", Except.error "bad page", Except.ok []⟩ :
        PageOracle) =
      Except.ok ([], ["p1: camelot error: bad page", "p1: no tables found"]) := by
  constructor
  · rfl
  · exact detector_errors_absorbed.2 1 _ "" "" "bad page" rfl rfl rfl

/-- C3 (counterexample): an exception from the page-text extraction is
not caught — it aborts the whole run, losing the later page's rows. -/
theorem text_extraction_error_aborts_run :
    processDocument 1
      [⟨Except.error "boom", Except.ok "", Except.ok [], Except.ok []⟩,
       ⟨Except.ok "", Except.ok "",
        Except.ok [[["Art. No", "Qty", "Price"], ["B1", "2", "3,00"]]], Except.ok []⟩] =
      Except.error "boom" ∧
    processDocument 1
      [⟨Except.ok "", Except.ok "",
        Except.ok [[["Art. No", "Qty", "Price"], ["B1", "2", "3,00"]]], Except.ok []⟩] =
      Except.ok ([⟨"B1", 2, 3, 1, ""⟩], ["p1: added 1 rows"]) := by
  constructor
  · rfl
  · rfl

end Extractor
